import Mathlib

set_option maxRecDepth 40000

namespace Phase1

/-!
Verification development for the phase-1 fingerprinting and caching core of
the dev-activity-report-skill repository
(skills/dev-activity-report-skill/scripts/phase1_runner.py).

The Python source is shallowly embedded: pure functions become Lean
functions over explicit models of their inputs; filesystem and subprocess
results (directory listings, file contents, git index contents, command
output) are passed in as explicit values, because they are the program's
inputs from the outside world.  Bytes are `Nat` values below 256, hashing
is a full executable SHA-256 over `List Nat`, and Python strings are Lean
`String`s.  Machine words are `Nat` with explicit reduction modulo `2 ^ 32`.
-/

/-! ## SHA-256 over byte lists

Executable FIPS 180-4 SHA-256.  The Python source calls `hashlib.sha256`
incrementally (`h.update(...)`); incremental hashing of chunks equals
hashing the concatenation of the chunks, so every call site is embedded as
`sha256` of the concatenated update stream. -/

def M32 : Nat := 4294967296

def add32 (a b : Nat) : Nat := (a + b) % M32

def rotr32 (n x : Nat) : Nat := ((x >>> n) ||| (x <<< (32 - n))) % M32

def not32 (x : Nat) : Nat := x ^^^ 4294967295

def chF (x y z : Nat) : Nat := (x &&& y) ^^^ (not32 x &&& z)

def majF (x y z : Nat) : Nat := (x &&& y) ^^^ (x &&& z) ^^^ (y &&& z)

def bsig0 (x : Nat) : Nat := rotr32 2 x ^^^ rotr32 13 x ^^^ rotr32 22 x

def bsig1 (x : Nat) : Nat := rotr32 6 x ^^^ rotr32 11 x ^^^ rotr32 25 x

def ssig0 (x : Nat) : Nat := rotr32 7 x ^^^ rotr32 18 x ^^^ (x >>> 3)

def ssig1 (x : Nat) : Nat := rotr32 17 x ^^^ rotr32 19 x ^^^ (x >>> 10)

def sha256K : List Nat :=
  [1116352408, 1899447441, 3049323471, 3921009573, 961987163, 1508970993,
   2453635748, 2870763221, 3624381080, 310598401, 607225278, 1426881987,
   1925078388, 2162078206, 2614888103, 3248222580, 3835390401, 4022224774,
   264347078, 604807628, 770255983, 1249150122, 1555081692, 1996064986,
   2554220882, 2821834349, 2952996808, 3210313671, 3336571891, 3584528711,
   113926993, 338241895, 666307205, 773529912, 1294757372, 1396182291,
   1695183700, 1986661051, 2177026350, 2456956037, 2730485921, 2820302411,
   3259730800, 3345764771, 3516065817, 3600352804, 4094571909, 275423344,
   430227734, 506948616, 659060556, 883997877, 958139571, 1322822218,
   1537002063, 1747873779, 1955562222, 2024104815, 2227730452, 2361852424,
   2428436474, 2756734187, 3204031479, 3329325298]

structure Sha2State where
  a : Nat
  b : Nat
  c : Nat
  d : Nat
  e : Nat
  f : Nat
  g : Nat
  h : Nat

def initState : Sha2State :=
  ⟨1779033703, 3144134277, 1013904242, 2773480762,
   1359893119, 2600822924, 528734635, 1541459225⟩

def padMsg (msg : List Nat) : List Nat :=
  let len := msg.length
  msg ++ 0x80 :: List.replicate ((64 - (len + 9) % 64) % 64) 0 ++
    [8 * len / 2 ^ 56 % 256, 8 * len / 2 ^ 48 % 256, 8 * len / 2 ^ 40 % 256,
     8 * len / 2 ^ 32 % 256, 8 * len / 2 ^ 24 % 256, 8 * len / 2 ^ 16 % 256,
     8 * len / 2 ^ 8 % 256, 8 * len % 256]

def toBlocksF : Nat → List Nat → List (List Nat)
  | 0, _ => []
  | _, [] => []
  | fuel + 1, l => l.take 64 :: toBlocksF fuel (l.drop 64)

def toBlocks (l : List Nat) : List (List Nat) := toBlocksF l.length l

def blockWords : List Nat → List Nat
  | b0 :: b1 :: b2 :: b3 :: rest =>
      (b0 * 2 ^ 24 + b1 * 2 ^ 16 + b2 * 2 ^ 8 + b3) :: blockWords rest
  | _ => []

def extendRev (rws : List Nat) : Nat → List Nat
  | 0 => rws
  | n + 1 =>
      extendRev
        (add32 (add32 (ssig1 (rws.getD 1 0)) (rws.getD 6 0))
          (add32 (ssig0 (rws.getD 14 0)) (rws.getD 15 0)) :: rws) n

def schedule (ws : List Nat) : List Nat := (extendRev ws.reverse 48).reverse

def roundStep (st : Sha2State) (kw : Nat × Nat) : Sha2State :=
  let t1 := add32 (add32 (add32 st.h (bsig1 st.e)) (add32 (chF st.e st.f st.g) kw.1)) kw.2
  let t2 := add32 (bsig0 st.a) (majF st.a st.b st.c)
  ⟨add32 t1 t2, st.a, st.b, st.c, add32 st.d t1, st.e, st.f, st.g⟩

def compress (st : Sha2State) (block : List Nat) : Sha2State :=
  let t := (sha256K.zip (schedule (blockWords block))).foldl roundStep st
  ⟨add32 st.a t.a, add32 st.b t.b, add32 st.c t.c, add32 st.d t.d,
   add32 st.e t.e, add32 st.f t.f, add32 st.g t.g, add32 st.h t.h⟩

def w2b (x : Nat) : List Nat :=
  [x / 2 ^ 24 % 256, x / 2 ^ 16 % 256, x / 2 ^ 8 % 256, x % 256]

/-- SHA-256 digest (32 bytes) of a byte list.  Input values are reduced
modulo 256 first, mirroring the byte domain of `hashlib.sha256`. -/
def sha256 (msg : List Nat) : List Nat :=
  let st := (toBlocks (padMsg (msg.map (· % 256)))).foldl compress initState
  w2b st.a ++ w2b st.b ++ w2b st.c ++ w2b st.d ++
    w2b st.e ++ w2b st.f ++ w2b st.g ++ w2b st.h

def hexDigits : List Char := "0123456789abcdef".data

def hexChar (n : Nat) : Char := hexDigits.getD n '0'

def byteHex (b : Nat) : List Char := [hexChar (b / 16 % 16), hexChar (b % 16)]

def hexOfBytes (bs : List Nat) : String := ⟨(bs.map byteHex).flatten⟩

/-- Embedding of `hashlib.sha256(stream).hexdigest()`. -/
def sha256hex (msg : List Nat) : String := hexOfBytes (sha256 msg)

/-- A SHA-256 collision: two distinct byte streams with equal digests.
None is known for real SHA-256; the caching design assumes there is none. -/
def Sha256Collision : Prop := ∃ m1 m2 : List Nat, m1 ≠ m2 ∧ sha256 m1 = sha256 m2

/-! ## UTF-8 encoding

Embedding of Python's `str.encode()`.  Code points are encoded
arithmetically (divisions and remainders by powers of two, equivalent to
the usual shift-and-mask formulation); a decoding round trip proves the
encoding injective, which the large-file sentinel argument needs. -/

def utf8Char (c : Nat) : List Nat :=
  if c < 0x80 then [c]
  else if c < 0x800 then [0xC0 + c / 64, 0x80 + c % 64]
  else if c < 0x10000 then [0xE0 + c / 4096, 0x80 + c / 64 % 64, 0x80 + c % 64]
  else [0xF0 + c / 262144, 0x80 + c / 4096 % 64, 0x80 + c / 64 % 64, 0x80 + c % 64]

/-- UTF-8 bytes of a string, the embedding of Python `s.encode()`. -/
def utf8Str (s : String) : List Nat := (s.data.map (fun c => utf8Char c.toNat)).flatten

def utf8Decode1 : List Nat → Option (Nat × List Nat)
  | [] => none
  | b :: t =>
    if b < 0x80 then some (b, t)
    else if b < 0xC0 then none
    else if b < 0xE0 then
      match t with
      | b2 :: t2 => some ((b - 0xC0) * 64 + (b2 - 0x80), t2)
      | _ => none
    else if b < 0xF0 then
      match t with
      | b2 :: b3 :: t3 => some ((b - 0xE0) * 4096 + (b2 - 0x80) * 64 + (b3 - 0x80), t3)
      | _ => none
    else
      match t with
      | b2 :: b3 :: b4 :: t4 =>
          some ((b - 0xF0) * 262144 + (b2 - 0x80) * 4096 + (b3 - 0x80) * 64 + (b4 - 0x80), t4)
      | _ => none

/-! ## Lexicographic string order and sorting

Python's `sorted` on strings compares code-point sequences
lexicographically; this is `lexLe` below.  `sortStrings` is the embedding
of `sorted(...)` (insertion sort — any correct sort yields the same list,
since the order is total and antisymmetric). -/

def lexLe : List Char → List Char → Bool
  | [], _ => true
  | _ :: _, [] => false
  | a :: as, b :: bs =>
      if a.toNat < b.toNat then true
      else if b.toNat < a.toNat then false
      else lexLe as bs

def strLe (a b : String) : Prop := lexLe a.data b.data = true

instance : DecidableRel strLe := fun _ _ => inferInstanceAs (Decidable (_ = true))

/-- Embedding of Python `sorted(strings)`. -/
def sortStrings (l : List String) : List String := l.insertionSort strLe

/-! ## Filesystem model

A file is looked up by path and is either absent (not a regular file),
a regular file with a stat size and content bytes, or a file whose stat
or open raises `OSError`.  Size and content are independent inputs so that
"the content of an oversized file is never read" is statable: the branch
taken depends only on the size. -/

inductive FileNode where
  | absent
  | node (size : Nat) (content : List Nat)
  | ioError

abbrev FS := List (String × FileNode)

def fsGet (fs : FS) (p : String) : FileNode := (fs.lookup p).getD FileNode.absent

/-- Source constant MAX_HASH_FILE_SIZE = 100 * 1024 * 1024. -/
def MAX_HASH_FILE_SIZE : Nat := 104857600

/-- The byte stream hashed for an oversized file in hash_file:
b"LARGE_FILE:" + str(path).encode(). -/
def largeFileInput (path : String) : List Nat := utf8Str ("LARGE_FILE:" ++ path)

/-- Embedding of hash_file (phase1_runner.py lines 126-136).  A missing
file makes stat raise OSError, yielding the empty string; an oversized
file is never read and gets the sentinel digest over the literal path; an
OSError during stat or read yields the empty string. -/
def hash_file (fs : FS) (path : String) : String :=
  match fsGet fs path with
  | FileNode.absent => ""
  | FileNode.ioError => ""
  | FileNode.node size content =>
      if size > MAX_HASH_FILE_SIZE then sha256hex (largeFileInput path)
      else sha256hex content

/-- Bytes that one relative path contributes to the hash_paths update
stream after its own UTF-8 path bytes: nothing when the path is not a
regular file or stat/read raises OSError, the literal sentinel for an
oversized file, and the raw content bytes otherwise. -/
def pathContrib (fs : FS) (rel : String) : List Nat :=
  match fsGet fs rel with
  | FileNode.absent => []
  | FileNode.ioError => []
  | FileNode.node size content =>
      if size > MAX_HASH_FILE_SIZE then utf8Str ("LARGE_FILE") else content

/-- The concatenation of all h.update(...) calls made by hash_paths. -/
def hashPathsStream (fs : FS) (files : List String) : List Nat :=
  (sortStrings files).foldl (fun acc rel => acc ++ utf8Str rel ++ pathContrib fs rel) []

/-- Embedding of hash_paths (phase1_runner.py lines 139-154): sort the
relative paths, then fold path bytes and per-path contribution into one
cumulative SHA-256. -/
def hash_paths (fs : FS) (files : List String) : String :=
  sha256hex (hashPathsStream fs files)

/-! ## Ignore patterns (fnmatch model)

Embedding of _matches_ignore (lines 46-65) with a glob matcher covering
asterisk, question mark and bracket character classes (with negation and
ranges); an unterminated bracket is a literal, as in fnmatch.  The matcher
recurses on explicit fuel, with pattern length plus subject length as a
sufficient supply. -/

def classItems : List Char → List (Char × Char)
  | a :: '-' :: b :: rest => (a, b) :: classItems rest
  | a :: rest => (a, a) :: classItems rest
  | [] => []

def classMatch (neg : Bool) (items : List (Char × Char)) (c : Char) : Bool :=
  let hit := items.any (fun ab => ab.1 ≤ c && c ≤ ab.2)
  if neg then !hit else hit

def findClose : List Char → List Char → Option (List Char × List Char)
  | _, [] => none
  | acc, ']' :: rest => some (acc.reverse, rest)
  | acc, c :: rest => findClose (c :: acc) rest

def globMatchF : Nat → List Char → List Char → Bool
  | 0, _, _ => false
  | _ + 1, [], s => s.isEmpty
  | fuel + 1, '*' :: ps, [] => globMatchF fuel ps []
  | fuel + 1, '*' :: ps, c :: cs =>
      globMatchF fuel ps (c :: cs) || globMatchF fuel ('*' :: ps) cs
  | fuel + 1, '?' :: ps, _ :: cs => globMatchF fuel ps cs
  | fuel + 1, '[' :: ps, s =>
      let negBody : Bool × List Char :=
        match ps with
        | '!' :: t => (true, t)
        | _ => (false, ps)
      let closed : Option (List Char × List Char) :=
        match negBody.2 with
        | ']' :: t => findClose [']'] t
        | other => findClose [] other
      match closed with
      | none =>
          match s with
          | c :: cs => ('[' == c) && globMatchF fuel ps cs
          | [] => false
      | some bodyRest =>
          match s with
          | c :: cs =>
              classMatch negBody.1 (classItems bodyRest.1) c &&
                globMatchF fuel bodyRest.2 cs
          | [] => false
  | fuel + 1, p :: ps, s =>
      match s with
      | c :: cs => p == c && globMatchF fuel ps cs
      | [] => false

def globMatch (pat s : List Char) : Bool :=
  globMatchF (pat.length + s.length + 1) pat s

def pathName (rel : String) : String := (rel.splitOn ("/")).getLastD rel

def matchIgnoreOne (rel : String) (pat : String) : Bool :=
  globMatch pat.data rel.data || globMatch pat.data (pathName rel).data ||
    (pat.endsWith ("/*") &&
      (let pre := pat.dropRight 2
       rel == pre || rel.startsWith (pre ++ "/")))

def matchesIgnore (patterns : List String) (rel : String) : Bool :=
  patterns.any (matchIgnoreOne rel)

/-- Embedding of load_fp_ignore_patterns (lines 34-43); the input models
the ignore file as absent or a list of raw lines. -/
def load_fp_ignore_patterns (fileLines : Option (List String)) : List String :=
  match fileLines with
  | none => []
  | some ls =>
      (ls.map String.trim).filter (fun l => l ≠ "" && !(l.startsWith ("#")))

/-- Embedding of hash_git_repo (lines 226-231).  The tracked-file list is
the external answer of git_tracked_files (pygit2 index or git ls-files). -/
def hash_git_repo (fs : FS) (trackedFiles : List String) (ignore : List String) : String :=
  hash_paths fs
    (if ignore.isEmpty then trackedFiles
     else trackedFiles.filter (fun f => !matchesIgnore ignore f))

/-! ## Directory trees and walks -/

inductive DirTree where
  | mk (files : List String) (subs : List (String × DirTree))

def IGNORED_DIRS : List String :=
  [".git", "node_modules", "venv", "bin", "obj", ".cache", "__pycache__"]

def joinRel (pre name : String) : String :=
  if pre = "" then name else pre ++ "/" ++ name

/-- Embedding of pathlib suffix: name.rfind of the dot, taken when the
last dot is neither the first nor the last character. -/
def suffixOf (name : String) : String :=
  let cs := name.data
  let n := cs.length
  match (cs.reverse.findIdx? (· == '.')) with
  | none => ""
  | some k =>
      let i := n - 1 - k
      if 0 < i ∧ i < n - 1 then ⟨cs.drop i⟩ else ("")

/-- File-selecting walk of hash_non_git_dir (lines 238-253): depth-bounded
descent (fuel is remaining depth plus one), noise/dot directories pruned,
files kept when their lowered suffix is allow-listed and no ignore pattern
matches. -/
def walkSelectF (allowed_exts ignore : List String) : Nat → DirTree → String → List String
  | 0, _, _ => []
  | fuel + 1, DirTree.mk files subs, pre =>
      let here := files.filterMap (fun name =>
        if allowed_exts.contains ((suffixOf name).toLower) then
          let rp := joinRel pre name
          if !ignore.isEmpty && matchesIgnore ignore rp then none else some rp
        else none)
      let keptSubs := subs.filter (fun nt =>
        !(IGNORED_DIRS.contains nt.1) && !(nt.1.startsWith (".")))
      here ++ keptSubs.flatMap (fun nt =>
        walkSelectF allowed_exts ignore fuel nt.2 (joinRel pre nt.1))

/-- Embedding of hash_non_git_dir (lines 234-254): empty fingerprint when
the directory does not exist, else hash_paths over the selected walk. -/
def hash_non_git_dir (tree : Option DirTree) (fs : FS)
    (allowed_exts ignore : List String) (maxDepth : Nat) : String :=
  match tree with
  | none => ""
  | some t => hash_paths fs (walkSelectF allowed_exts ignore (maxDepth + 1) t (""))

/-! ## Marker discovery (project classifier) -/

structure MarkerEntry where
  m : String
  p : String
  path : String
deriving DecidableEq, Repr

def MARKERS : List String :=
  [".not-my-work", ".skip-for-now", ".forked-work", ".forked-work-modified"]

abbrev StatusMap := List (String × String)

/-- Python dict assignment: replace in place if the key exists, else
append (dicts preserve insertion order). -/
def mapSet (m : StatusMap) (k v : String) : StatusMap :=
  if (m.lookup k).isSome then m.map (fun kv => if kv.1 == k then (k, v) else kv)
  else m ++ [(k, v)]

/-- Python dict setdefault: only add when the key is absent. -/
def mapSetD (m : StatusMap) (k v : String) : StatusMap :=
  if (m.lookup k).isSome then m else m ++ [(k, v)]

/-- The per-marker status update of discover_markers (lines 280-287). -/
def applyMarker (project marker : String) (m : StatusMap) : StatusMap :=
  if marker == ".not-my-work" then mapSet m project ("not")
  else if marker == ".skip-for-now" then mapSet m project ("skip")
  else if marker == ".forked-work" then mapSetD m project ("fork")
  else if marker == ".forked-work-modified" then mapSet m project ("fork_mod")
  else m

/-- One-pass walk of discover_markers (lines 264-288): depth at most 2
(fuel 3 from the root), every subdirectory descended, markers tested in
MARKERS order within each directory; the project key is the first path
component below the scan root (empty at the root itself). -/
def scanMarkersF : Nat → Nat → DirTree → String → String →
    List MarkerEntry × StatusMap → List MarkerEntry × StatusMap
  | 0, _, _, _, _, acc => acc
  | fuel + 1, depth, DirTree.mk files subs, project, path, acc =>
      let acc1 := MARKERS.foldl (fun a marker =>
        if files.contains marker then
          (a.1 ++ [⟨marker, project, path⟩], applyMarker project marker a.2)
        else a) acc
      subs.foldl (fun a nt =>
        scanMarkersF fuel (depth + 1) nt.2 (if depth = 0 then nt.1 else project)
          (path ++ "/" ++ nt.1) a) acc1

/-- Embedding of discover_markers: a missing scan root yields empty
results; base is the absolute path of the scan root. -/
def discover_markers (apps : Option DirTree) (base : String) :
    List MarkerEntry × StatusMap :=
  match apps with
  | none => ([], [])
  | some t => scanMarkersF 3 0 t ("") base ([], [])

/-! ## Project collection -/

structure GitView where
  countOut : String
  shortstatOut : String
  nameOnlyOut : String
  logOut : String
deriving DecidableEq, Repr, Inhabited

/-- One child of the scan root as the outside world presents it:
directory bit, version-control probe answer (is_git_repo), git index
contents (git_tracked_files), directory tree and file contents for
hashing, git_head answer, and the first line of the per-project cache
marker (read_cache_header; empty when missing or unreadable). -/
structure ChildDir where
  name : String
  isDir : Bool
  git : Bool
  gitFiles : List String
  tree : Option DirTree
  fs : FS
  head : String
  cacheHeader : String

structure ProjRecord where
  name : String
  path : String
  fp : String
  head : String
  cached_fp : String
  cache_hit : Bool
  status : String
  git : Bool
deriving DecidableEq, Repr

def isHexLowerDigit (c : Char) : Bool :=
  (('a' ≤ c) && (c ≤ 'f')) || (('0' ≤ c) && (c ≤ '9'))

def isPySpace (c : Char) : Bool :=
  c == ' ' || c == '\t' || c == '\n' || c == '\r' || c.toNat == 11 || c.toNat == 12

def listStartsWith : List Char → List Char → Bool
  | [], _ => true
  | _ :: _, [] => false
  | p :: ps, c :: cs => p == c && listStartsWith ps cs

def pcfScan : List Char → Option (List Char)
  | [] => none
  | c :: rest =>
      if listStartsWith ("fingerprint:").data (c :: rest) then
        let run := (((c :: rest).drop 12).dropWhile isPySpace).takeWhile isHexLowerDigit
        if run.isEmpty then pcfScan rest else some run
      else pcfScan rest

/-- Embedding of parse_cached_fp (lines 291-293): leftmost regex search
for the literal fingerprint label, optional whitespace, then a nonempty
maximal run of lowercase hex characters. -/
def parse_cached_fp (header : String) : String :=
  match pcfScan header.data with
  | none => ""
  | some run => ⟨run⟩

/-- The per-project cache-hit test of collect_projects line 322:
bool(fingerprint and cached_fp and fingerprint == cached_fp). -/
def project_cache_hit (fingerprint cached_fp : String) : Bool :=
  (!(fingerprint == "")) && (!(cached_fp == "")) && (fingerprint == cached_fp)

def childLe (a b : ChildDir) : Prop := strLe a.name b.name

instance : DecidableRel childLe :=
  fun a b => inferInstanceAs (Decidable (strLe a.name b.name))

/-- Embedding of collect_projects (lines 307-335): children of the scan
root in sorted order, non-directories skipped, excluded statuses dropped,
fingerprint from hash_git_repo or hash_non_git_dir, cached fingerprint
parsed from the marker header, cache hit by project_cache_hit. -/
def collect_projects (apps : Option (List ChildDir)) (status_map : StatusMap)
    (allowed_exts ignore : List String) (base : String) : List ProjRecord :=
  match apps with
  | none => []
  | some children =>
      ((children.insertionSort childLe).filter (fun c => c.isDir)).filterMap
        (fun child =>
          let project_status := (status_map.lookup child.name).getD ("orig")
          if project_status == "not" || project_status == "skip" then none
          else
            let fingerprint :=
              if child.git then hash_git_repo child.fs child.gitFiles ignore
              else hash_non_git_dir child.tree child.fs allowed_exts ignore 4
            some { name := child.name
                   path := joinRel base child.name
                   fp := fingerprint
                   head := if child.git then child.head else ("")
                   cached_fp := parse_cached_fp child.cacheHeader
                   cache_hit := project_cache_hit fingerprint (parse_cached_fp child.cacheHeader)
                   status := project_status
                   git := child.git })

/-! ## JSON values and the cache store -/

inductive Json where
  | null
  | bool (b : Bool)
  | num (n : Int)
  | str (s : String)
  | arr (xs : List Json)
  | obj (kvs : List (String × Json))

/-- Python truthiness of a decoded JSON value. -/
def jsonTruthy : Json → Bool
  | Json.null => false
  | Json.bool b => b
  | Json.num n => n != 0
  | Json.str s => s != ""
  | Json.arr xs => !xs.isEmpty
  | Json.obj kvs => !kvs.isEmpty

/-- State of the global cache file as the read path distinguishes it:
absent; a read failing with OSError; bytes that are not valid UTF-8 (the
utf-8 read_text call raises UnicodeDecodeError on them); UTF-8 text that
is not valid JSON (json.loads raises json.JSONDecodeError); or bytes that
decode and parse to a JSON value. -/
inductive CacheFile where
  | absent
  | ioError
  | badBytes
  | invalid
  | parsed (j : Json)

/-- Embedding of read_cache (lines 590-596).  The outer Option records
whether the call returns at all: some r is a normal return and none is an
uncaught exception escaping to the caller.  The except clause catches only
OSError and json.JSONDecodeError, so a missing file, a caught read error,
and UTF-8 text that is not valid JSON return None — but bytes that are not
valid UTF-8 make read_text raise UnicodeDecodeError, which neither clause
catches, and the exception propagates.  A successfully parsed JSON value
is returned with no schema validation. -/
def read_cache : CacheFile → Option (Option Json)
  | CacheFile.absent => some none
  | CacheFile.ioError => some none
  | CacheFile.badBytes => none
  | CacheFile.invalid => some none
  | CacheFile.parsed j => some (some j)

/-- The record write_cache persists (lines 599-604): fingerprint,
cached_at timestamp, and the payload under data.  Atomic tmp-and-rename
mechanics are filesystem effects outside this embedding. -/
def cacheEntryJson (fingerprint cached_at : String) (data : Json) : Json :=
  Json.obj [("fingerprint", Json.str fingerprint),
            ("cached_at", Json.str cached_at), ("data", data)]

/-! ## Stale-project summarization

summarize_project consults git subprocesses (commit count, shortstat,
changed files, log) for version-controlled projects; those command
outputs are inputs here, looked up per project path in a World. -/

def splitLines (s : String) : List String :=
  if s = "" then []
  else
    let parts := s.splitOn ("\n")
    if parts.getLastD ("") = "" then parts.dropLast else parts

def MAX_CHANGED_FILES : Nat := 10

def MAX_COMMIT_MESSAGES : Nat := 6

def MAX_KEY_FILES : Nat := 6

/-- Embedding of git_range_base (lines 353-358). -/
def git_range_base (head : String) : String :=
  if head ≠ "" then head ++ "~20" else ("HEAD~20")

/-- Embedding of git_commit_count (lines 361-366) applied to the stripped
run_command output: integer parse with ValueError and empty output
falling back to zero. -/
def git_commit_count (countOut : String) : Int := (countOut.trim.toInt?).getD 0

/-- Embedding of git_changed_files (lines 373-376). -/
def git_changed_files (nameOnlyOut : String) (limit : Nat) : List String :=
  ((splitLines nameOnlyOut).filter (fun l => l ≠ "")).take limit

/-- Embedding of git_messages (lines 379-383). -/
def git_messages (logOut : String) (limit : Nat) : List String :=
  ((splitLines logOut).filter (fun l => l ≠ "")).take limit

def containsSub (pat : List Char) : List Char → Bool
  | [] => listStartsWith pat []
  | c :: rest => listStartsWith pat (c :: rest) || containsSub pat rest

/-- Embedding of derive_highlights (lines 386-403). -/
def derive_highlights (messages files : List String) : List String :=
  let joined := (String.intercalate (" ") messages).toLower
  let has := fun (k : String) => containsSub k.data joined.data
  let t1 := if has ("perf") || has ("speed") || has ("latency") || has ("optimiz") then ["perf"] else []
  let t2 := if has ("refactor") || has ("cleanup") || has ("rewrite") then ["refactor"] else []
  let t3 := if has ("fix") || has ("bug") || has ("patch") || has ("hotfix") then ["bugfix"] else []
  let t4 := if has ("doc") || has ("readme") || has ("comment") then ["docs"] else []
  let t5 := if (has ("deps") || has ("bump") || has ("upgrade") || has ("package")) ||
      files.any (fun f => containsSub ("package").data f.data ||
        containsSub ("requirements").data f.data ||
        containsSub ("poetry.lock").data f.data ||
        containsSub ("package-lock").data f.data) then ["deps"] else []
  let t6 := if has ("ai") || has ("prompt") || has ("model") || has ("llm") then ["ai-workflow"] else []
  (t1 ++ t2 ++ t3 ++ t4 ++ t5 ++ t6).take 4

def KEY_FILE_PATTERNS : List String :=
  ["*.md", "*.csproj", "Dockerfile*", "docker-compose*.yml"]

def walkKeyFilesF : Nat → DirTree → String → List String
  | 0, _, _ => []
  | fuel + 1, DirTree.mk files subs, pre =>
      let here := files.filterMap (fun name =>
        if KEY_FILE_PATTERNS.any (fun pat => globMatch pat.data name.data)
        then some (joinRel pre name) else none)
      let keptSubs := subs.filter (fun nt =>
        !(IGNORED_DIRS.contains nt.1) && !(nt.1.startsWith (".")))
      here ++ keptSubs.flatMap (fun nt => walkKeyFilesF fuel nt.2 (joinRel pre nt.1))

/-- Embedding of collect_key_files (lines 406-425): depth at most 3, noise
and dot directories pruned, glob patterns for key files, first
MAX_KEY_FILES matches in walk order. -/
def collect_key_files (tree : Option DirTree) : List String :=
  match tree with
  | none => []
  | some t => (walkKeyFilesF 4 t ("")).take MAX_KEY_FILES

structure ProjWorld where
  tree : Option DirTree
  gv : GitView

abbrev World := List (String × ProjWorld)

def strArrJson (l : List String) : Json := Json.arr (l.map Json.str)

/-- Embedding of summarize_project (lines 428-453); git numbers come from
the World entry for the project path (subprocess results), non-git
projects walk key files instead. -/
def summarize_project (world : World) (entry : ProjRecord) : Json :=
  let pw := (world.lookup entry.path).getD ⟨none, default⟩
  let cc : Int := if entry.git then git_commit_count pw.gv.countOut else 0
  let sd : String := if entry.git then pw.gv.shortstatOut else ("")
  let fc : List String :=
    if entry.git then git_changed_files pw.gv.nameOnlyOut MAX_CHANGED_FILES
    else collect_key_files pw.tree
  let msg : List String :=
    if entry.git then git_messages pw.gv.logOut MAX_COMMIT_MESSAGES else []
  Json.obj [("n", Json.str entry.name), ("pt", Json.str entry.path),
    ("fp", Json.str entry.fp), ("st", Json.str entry.status), ("cc", Json.num cc),
    ("sd", Json.str sd), ("fc", strArrJson fc), ("msg", strArrJson msg),
    ("hl", strArrJson (derive_highlights msg fc))]

/-- Embedding of build_payload (lines 616-642); stale_projects are the
already-summarized stale entries, exactly as in the source signature. -/
def build_payload (ts apps_dir : String) (markers : List MarkerEntry)
    (projects : List ProjRecord) (stale_projects : List Json)
    (extra cl cx ins : Json) : Json :=
  Json.obj [
    ("ts", Json.str ts),
    ("ad", Json.str apps_dir),
    ("mk", Json.arr (markers.map (fun mk =>
      Json.obj [("m", Json.str mk.m), ("p", Json.str mk.p)]))),
    ("p", Json.arr stale_projects),
    ("x", extra), ("cl", cl), ("cx", cx), ("ins", ins),
    ("stats", Json.obj [
      ("total", Json.num projects.length),
      ("stale", Json.num stale_projects.length),
      ("cached", Json.num (projects.filter (fun p => p.cache_hit)).length)])]

/-! ## The run decision of main

Everything main does after computing the run fingerprint (lines 667-688).
The fingerprint itself is hash_payload over compute_fingerprint_source —
a canonical-JSON SHA-256 upstream of this decision; its value enters here
only through equality with the stored one, so it is an input.  The
outcome records what is printed, whether write_cache is called and with
what, and which projects are summarized (None when the stale-set work is
skipped entirely). -/

structure RunOutcome where
  emitted : Json
  wroteCache : Option (String × Json)
  summarized : Option (List ProjRecord)

/-- None models the AttributeError raised when the decoded cache value is
truthy but not a dict (cache.get on line 668). -/
def mainStep (cache : Option Json) (fingerprint : String) (ts apps_dir : String)
    (markers : List MarkerEntry) (projects : List ProjRecord) (world : World)
    (extra cl cx ins : Json) : Option RunOutcome :=
  let stale := projects.filter (fun p => !p.cache_hit)
  let payload := build_payload ts apps_dir markers projects
    (stale.map (summarize_project world)) extra cl cx ins
  let cold : RunOutcome :=
    { emitted := Json.obj [("fp", Json.str fingerprint),
        ("cache_hit", Json.bool false), ("data", payload)]
      wroteCache := some (fingerprint, payload)
      summarized := some stale }
  match cache with
  | none => some cold
  | some j =>
      if jsonTruthy j then
        match j with
        | Json.obj kvs =>
            match kvs.lookup ("fingerprint") with
            | some (Json.str s) =>
                if s = fingerprint then
                  some { emitted := Json.obj [("fp", Json.str fingerprint),
                           ("cache_hit", Json.bool true),
                           ("data", (kvs.lookup ("data")).getD (Json.obj []))]
                         wroteCache := none
                         summarized := none }
                else some cold
            | _ => some cold
        | _ => none
      else some cold

/-- The scan root as the world presents it: the directory tree walked by
discover_markers and the child entries iterated by collect_projects. -/
structure AppsView where
  tree : DirTree
  children : List ChildDir

/-- Composition of the phase-1 run around the scan root: marker discovery,
project collection, the cache read, then the main decision.  None for apps
models a scan root that does not exist; a none result is a run aborted by
an uncaught exception (in particular the UnicodeDecodeError escaping
read_cache on a cache of non-UTF-8 bytes). -/
def runPhase1 (apps : Option AppsView) (base : String)
    (allowed_exts ignore : List String) (cacheState : CacheFile)
    (fingerprint ts : String) (world : World)
    (extra cl cx ins : Json) : Option RunOutcome :=
  let dm := discover_markers (apps.map (fun a => a.tree)) base
  let projects := collect_projects (apps.map (fun a => a.children)) dm.2
    allowed_exts ignore base
  match read_cache cacheState with
  | none => none
  | some cache =>
      mainStep cache fingerprint ts base dm.1 projects world extra cl cx ins

/-! ## Claim-specific auxiliary definitions -/

/-- Per-path contribution as the spec describes it for hashPathList. -/
def specPathDigestContrib (fs : FS) (rel : String) : List Nat :=
  match fsGet fs rel with
  | FileNode.absent => []
  | FileNode.ioError => []
  | FileNode.node size content =>
      if size > MAX_HASH_FILE_SIZE then utf8Str ("LARGE_FILE")
      else utf8Str (sha256hex content)

/-- Modelled from the spec (section 4.1): hashPathList sorts the relative
paths and folds each path's UTF-8 bytes plus its file content DIGEST (or
the large-file sentinel) into one cumulative hash; paths that do not
resolve to existing files contribute only their path bytes.  This is the
refinement target the source hash_paths is compared against. -/
def hash_paths_specModel (fs : FS) (files : List String) : String :=
  sha256hex ((sortStrings files).foldl
    (fun acc rel => acc ++ utf8Str rel ++ specPathDigestContrib fs rel) [])

/-- The marker events one directory contributes, in MARKERS order. -/
def dirEvents (files : List String) (project path : String) : List MarkerEntry :=
  MARKERS.filterMap (fun marker =>
    if files.contains marker then some ⟨marker, project, path⟩ else none)

/-- The full ordered list of marker events of the depth-bounded walk. -/
def markerEventsF : Nat → Nat → DirTree → String → String → List MarkerEntry
  | 0, _, _, _, _ => []
  | fuel + 1, depth, DirTree.mk files subs, project, path =>
      dirEvents files project path ++
        subs.flatMap (fun nt =>
          markerEventsF fuel (depth + 1) nt.2 (if depth = 0 then nt.1 else project)
            (path ++ "/" ++ nt.1))

/-- One status update driven by one marker event. -/
def stepSM (m : StatusMap) (e : MarkerEntry) : StatusMap := applyMarker e.p e.m m

def objKeys : Json → List String
  | Json.obj kvs => kvs.map Prod.fst
  | _ => []

def jsonGet : Json → String → Option Json
  | Json.obj kvs, k => kvs.lookup k
  | _, _ => none

def emittedOf : Option RunOutcome → Json
  | some r => r.emitted
  | none => Json.null

/-- The emitted-object shape asserted by the spec (section 6): digest
under a key named fingerprint, then cache_hit, then data. -/
def SpecEmitShape (j : Json) : Prop :=
  ∃ fpv hitv datav,
    j = Json.obj [("fingerprint", fpv), ("cache_hit", hitv), ("data", datav)]

/-- A decoded cache value of the persisted CacheEntry schema. -/
def IsCacheEntryShape (j : Json) : Prop :=
  ∃ f t d, j = cacheEntryJson f t d

/-- The cold-run outcome of mainStep: stale projects summarized, cache
written, cache-miss object emitted. -/
def coldOutcome (fingerprint ts apps_dir : String) (markers : List MarkerEntry)
    (projects : List ProjRecord) (world : World)
    (extra cl cx ins : Json) : RunOutcome :=
  let stale := projects.filter (fun p => !p.cache_hit)
  let payload := build_payload ts apps_dir markers projects
    (stale.map (summarize_project world)) extra cl cx ins
  { emitted := Json.obj [("fp", Json.str fingerprint),
      ("cache_hit", Json.bool false), ("data", payload)]
    wroteCache := some (fingerprint, payload)
    summarized := some stale }

/-- Scan-root fixture for the C3 counterexample: one project directory
holding both a skip-for-now and a forked-work-modified marker. -/
def treeC3 : DirTree :=
  DirTree.mk [] [("p", DirTree.mk [".skip-for-now", ".forked-work-modified"] [])]

/-- Child entry matching treeC3's project directory, presented to
collect_projects: an existing version-controlled directory with an empty
tracked-file list. -/
def childC3 : ChildDir :=
  { name := "p", isDir := true, git := true, gitFiles := [], tree := none,
    fs := [], head := "", cacheHeader := "" }

/-- Scan-root fixture for the C3 witness: one project directory holding
only a skip-for-now marker. -/
def treeW : DirTree :=
  DirTree.mk [] [("q", DirTree.mk [".skip-for-now"] [])]

/-- Child fixture for witnesses: a version-controlled directory with an
empty index and no cache marker. -/
def childW (nm : String) : ChildDir :=
  { name := nm, isDir := true, git := true, gitFiles := [], tree := none,
    fs := [], head := "", cacheHeader := "" }

/-- SHA-256 of the empty byte stream, the fingerprint of an empty index. -/
def emptyDigest : String :=
  "e3b0c44298fc1c149afbf4c8996fb92427ae41e4649b934ca495991b7852b855"

/-- The record collect_projects produces for childW applied to the name p
under an empty status map. -/
def recW : ProjRecord :=
  { name := "p", path := "/a/p", fp := emptyDigest, head := "",
    cached_fp := "", cache_hit := false, status := "orig", git := true }

/-! ## Theorems: general lemmas, then one theorem per claim (with
counterexamples and witnesses where applicable) -/

theorem sha256hex_nil_vector :
    sha256hex [] = "e3b0c44298fc1c149afbf4c8996fb92427ae41e4649b934ca495991b7852b855" := by
  decide

theorem sha256hex_abc_vector :
    sha256hex [97, 98, 99] = "ba7816bf8f01cfea414140de5dae2223b00361a396177a9cb410ff61f20015ad" := by
  decide

theorem w2b_length (x : Nat) : (w2b x).length = 4 := rfl

theorem sha256_length (msg : List Nat) : (sha256 msg).length = 32 := by
  simp [sha256, w2b]

theorem w2b_mem_lt (x b : Nat) (hb : b ∈ w2b x) : b < 256 := by
  simp only [w2b, List.mem_cons, List.not_mem_nil, or_false] at hb
  rcases hb with rfl | rfl | rfl | rfl <;> exact Nat.mod_lt _ (by decide)

theorem sha256_mem_lt (msg : List Nat) : ∀ b ∈ sha256 msg, b < 256 := by
  intro b hb
  simp only [sha256, List.mem_append] at hb
  rcases hb with ((((((h | h) | h) | h) | h) | h) | h) | h <;> exact w2b_mem_lt _ _ h

theorem hexOfBytes_data (bs : List Nat) :
    (hexOfBytes bs).data = (bs.map byteHex).flatten := rfl

theorem hexOfBytes_length (bs : List Nat) :
    (hexOfBytes bs).length = 2 * bs.length := by
  show ((bs.map byteHex).flatten).length = 2 * bs.length
  induction bs with
  | nil => rfl
  | cons b t ih =>
      simp only [List.map_cons, List.flatten_cons, List.length_append, ih, byteHex,
        List.length_cons, List.length_nil, List.length_cons]
      omega

theorem sha256hex_length (msg : List Nat) : (sha256hex msg).length = 64 := by
  rw [sha256hex, hexOfBytes_length, sha256_length]

theorem sha256hex_ne_empty (msg : List Nat) : sha256hex msg ≠ "" := by
  intro h
  have := sha256hex_length msg
  rw [h] at this
  exact absurd this (by decide)

theorem hexChar_mem (n : Nat) : hexChar n ∈ hexDigits := by
  by_cases h : n < hexDigits.length
  · rw [hexChar, hexDigits.getD_eq_getElem '0' h]
    exact List.getElem_mem h
  · rw [hexChar, List.getD_eq_default _ _ (Nat.le_of_not_lt h)]
    decide

theorem sha256hex_chars (msg : List Nat) :
    ∀ c ∈ (sha256hex msg).data, c ∈ hexDigits := by
  intro c hc
  rw [sha256hex, hexOfBytes_data] at hc
  rcases List.mem_flatten.mp hc with ⟨l, hl, hcl⟩
  rcases List.mem_map.mp hl with ⟨b, _, rfl⟩
  simp only [byteHex, List.mem_cons, List.not_mem_nil, or_false] at hcl
  rcases hcl with rfl | rfl <;> exact hexChar_mem _

theorem hexChar_inj_lt (x y : Nat) (hx : x < 16) (hy : y < 16)
    (h : hexChar x = hexChar y) : x = y := by
  have : ∀ a b : Fin 16, hexChar a.val = hexChar b.val → a = b := by decide
  have h2 := this ⟨x, hx⟩ ⟨y, hy⟩ h
  exact congrArg Fin.val h2

theorem byteHex_inj (a b : Nat) (ha : a < 256) (hb : b < 256)
    (h : byteHex a = byteHex b) : a = b := by
  simp only [byteHex, List.cons.injEq, and_true] at h
  have h1 := hexChar_inj_lt _ _ (Nat.mod_lt _ (by decide)) (Nat.mod_lt _ (by decide)) h.1
  have h2 := hexChar_inj_lt _ _ (Nat.mod_lt _ (by decide)) (Nat.mod_lt _ (by decide)) h.2
  omega

theorem hexOfBytes_inj (as bs : List Nat) (ha : ∀ a ∈ as, a < 256)
    (hb : ∀ b ∈ bs, b < 256) (h : hexOfBytes as = hexOfBytes bs) : as = bs := by
  induction as generalizing bs with
  | nil =>
      cases bs with
      | nil => rfl
      | cons y ys =>
          have := congrArg String.length h
          rw [hexOfBytes_length, hexOfBytes_length] at this
          simp at this
  | cons x xs ih =>
      cases bs with
      | nil =>
          have := congrArg String.length h
          rw [hexOfBytes_length, hexOfBytes_length] at this
          simp at this
      | cons y ys =>
          have hdata := congrArg String.data h
          rw [hexOfBytes_data, hexOfBytes_data] at hdata
          simp only [List.map_cons, List.flatten_cons, byteHex, List.cons_append,
            List.nil_append, List.cons.injEq] at hdata
          obtain ⟨e1, e2, erest⟩ := hdata
          have hxy : x = y := by
            apply byteHex_inj x y (ha x (by simp)) (hb y (by simp))
            simp only [byteHex, e1, e2]
          have hrest : xs = ys := by
            apply ih ys (fun a hx => ha a (List.mem_cons_of_mem _ hx))
              (fun b hy => hb b (List.mem_cons_of_mem _ hy))
            show hexOfBytes xs = hexOfBytes ys
            exact congrArg String.mk erest
          rw [hxy, hrest]

/-- Equality of hex digests of SHA-256 outputs forces equality of the raw
digests: hex rendering is injective on byte lists. -/
theorem sha256hex_inj_digest (m1 m2 : List Nat)
    (h : sha256hex m1 = sha256hex m2) : sha256 m1 = sha256 m2 :=
  hexOfBytes_inj _ _ (sha256_mem_lt m1) (sha256_mem_lt m2) h

theorem utf8Char_decode (c : Nat) (hc : c < 1114112) (rest : List Nat) :
    utf8Decode1 (utf8Char c ++ rest) = some (c, rest) := by
  by_cases h1 : c < 0x80
  · simp only [utf8Char, if_pos h1, List.cons_append, List.nil_append, utf8Decode1, if_pos h1]
  · by_cases h2 : c < 0x800
    · have e1 : ¬ 0xC0 + c / 64 < 0x80 := by omega
      have e2 : ¬ 0xC0 + c / 64 < 0xC0 := by omega
      have e3 : 0xC0 + c / 64 < 0xE0 := by omega
      simp only [utf8Char, if_neg h1, if_pos h2, List.cons_append, List.nil_append,
        utf8Decode1, if_neg e1, if_neg e2, if_pos e3]
      congr 1
      congr 1
      omega
    · by_cases h3 : c < 0x10000
      · have e1 : ¬ 0xE0 + c / 4096 < 0x80 := by omega
        have e2 : ¬ 0xE0 + c / 4096 < 0xC0 := by omega
        have e3 : ¬ 0xE0 + c / 4096 < 0xE0 := by omega
        have e4 : 0xE0 + c / 4096 < 0xF0 := by omega
        simp only [utf8Char, if_neg h1, if_neg h2, if_pos h3, List.cons_append,
          List.nil_append, utf8Decode1, if_neg e1, if_neg e2, if_neg e3, if_pos e4]
        congr 1
        congr 1
        omega
      · have e1 : ¬ 0xF0 + c / 262144 < 0x80 := by omega
        have e2 : ¬ 0xF0 + c / 262144 < 0xC0 := by omega
        have e3 : ¬ 0xF0 + c / 262144 < 0xE0 := by omega
        have e4 : ¬ 0xF0 + c / 262144 < 0xF0 := by omega
        simp only [utf8Char, if_neg h1, if_neg h2, if_neg h3, List.cons_append,
          List.nil_append, utf8Decode1, if_neg e1, if_neg e2, if_neg e3, if_neg e4]
        congr 1
        congr 1
        omega

theorem utf8Char_ne_nil (c : Nat) : utf8Char c ≠ [] := by
  unfold utf8Char
  split <;> try simp
  split <;> try simp
  split <;> simp

theorem char_toNat_lt (c : Char) : c.toNat < 1114112 := by
  rcases c.valid with h | h
  · exact Nat.lt_trans h (by decide)
  · exact h.2

theorem char_toNat_inj (c d : Char) (h : c.toNat = d.toNat) : c = d := by
  apply Char.ext
  apply UInt32.ext
  simpa [Char.toNat, UInt32.toNat] using h

theorem utf8_chars_inj (l1 l2 : List Char)
    (h : (l1.map (fun c => utf8Char c.toNat)).flatten
       = (l2.map (fun c => utf8Char c.toNat)).flatten) : l1 = l2 := by
  induction l1 generalizing l2 with
  | nil =>
      cases l2 with
      | nil => rfl
      | cons y ys =>
          simp only [List.map_nil, List.flatten_nil, List.map_cons, List.flatten_cons] at h
          exact absurd (List.append_eq_nil.mp h.symm).1 (utf8Char_ne_nil _)
  | cons x xs ih =>
      cases l2 with
      | nil =>
          simp only [List.map_nil, List.flatten_nil, List.map_cons, List.flatten_cons] at h
          exact absurd (List.append_eq_nil.mp h).1 (utf8Char_ne_nil _)
      | cons y ys =>
          simp only [List.map_cons, List.flatten_cons] at h
          have d1 := utf8Char_decode x.toNat (char_toNat_lt x)
            ((xs.map (fun c => utf8Char c.toNat)).flatten)
          have d2 := utf8Char_decode y.toNat (char_toNat_lt y)
            ((ys.map (fun c => utf8Char c.toNat)).flatten)
          rw [h] at d1
          rw [d2] at d1
          have hp := Option.some.inj d1
          have hv : y.toNat = x.toNat := congrArg Prod.fst hp
          have hrest : (ys.map (fun c => utf8Char c.toNat)).flatten
              = (xs.map (fun c => utf8Char c.toNat)).flatten := congrArg Prod.snd hp
          have hx : x = y := char_toNat_inj x y hv.symm
          rw [hx, ih ys hrest.symm]

theorem utf8Str_inj (s1 s2 : String) (h : utf8Str s1 = utf8Str s2) : s1 = s2 := by
  have := utf8_chars_inj s1.data s2.data h
  cases s1
  cases s2
  exact congrArg String.mk this

theorem lexLe_total (l1 l2 : List Char) : lexLe l1 l2 = true ∨ lexLe l2 l1 = true := by
  induction l1 generalizing l2 with
  | nil => left; rfl
  | cons a as ih =>
      cases l2 with
      | nil => right; rfl
      | cons b bs =>
          by_cases hab : a.toNat < b.toNat
          · left; simp [lexLe, hab]
          · by_cases hba : b.toNat < a.toNat
            · right; simp [lexLe, hba]
            · rcases ih bs with h | h
              · left; simp [lexLe, hab, hba, h]
              · right; simp [lexLe, hab, hba, h]

theorem lexLe_trans (l1 l2 l3 : List Char) (h12 : lexLe l1 l2 = true)
    (h23 : lexLe l2 l3 = true) : lexLe l1 l3 = true := by
  induction l1 generalizing l2 l3 with
  | nil => rfl
  | cons a as ih =>
      cases l2 with
      | nil => simp [lexLe] at h12
      | cons b bs =>
          cases l3 with
          | nil => simp [lexLe] at h23
          | cons c cs =>
              simp only [lexLe] at h12 h23 ⊢
              by_cases hab : a.toNat < b.toNat <;> by_cases hbc : b.toNat < c.toNat <;>
                by_cases hba : b.toNat < a.toNat <;> by_cases hcb : c.toNat < b.toNat <;>
                simp_all <;> try omega
              all_goals
                have hac : ¬ a.toNat < c.toNat → ¬ c.toNat < a.toNat → lexLe as cs = true := by
                  intro _ _
                  exact ih bs cs h12 h23
              all_goals
                by_cases h1 : a.toNat < c.toNat <;> by_cases h2 : c.toNat < a.toNat <;>
                  simp_all <;> omega

theorem lexLe_antisymm (l1 l2 : List Char) (h12 : lexLe l1 l2 = true)
    (h21 : lexLe l2 l1 = true) : l1 = l2 := by
  induction l1 generalizing l2 with
  | nil =>
      cases l2 with
      | nil => rfl
      | cons b bs => simp [lexLe] at h21
  | cons a as ih =>
      cases l2 with
      | nil => simp [lexLe] at h12
      | cons b bs =>
          simp only [lexLe] at h12 h21
          by_cases hab : a.toNat < b.toNat
          · rw [if_neg (by omega : ¬ b.toNat < a.toNat), if_pos hab] at h21
            simp at h21
          · by_cases hba : b.toNat < a.toNat
            · rw [if_neg (by omega : ¬ a.toNat < b.toNat), if_pos hba] at h12
              simp at h12
            · rw [if_neg hab, if_neg hba] at h12
              rw [if_neg hba, if_neg hab] at h21
              have he : a = b := char_toNat_inj a b (by omega)
              rw [he, ih bs h12 h21]

theorem sortStrings_perm (l : List String) : (sortStrings l).Perm l :=
  List.perm_insertionSort strLe l

theorem sortStrings_sorted (l : List String) : List.Sorted strLe (sortStrings l) := by
  haveI : IsTotal String strLe := ⟨fun a b => lexLe_total a.data b.data⟩
  haveI : IsTrans String strLe := ⟨fun a b c => lexLe_trans a.data b.data c.data⟩
  exact List.sorted_insertionSort strLe l

/-- Sorting is invariant under permutation of the input: the digest of a
path list therefore cannot depend on traversal order. -/
theorem sortStrings_perm_inv (l1 l2 : List String) (h : l1.Perm l2) :
    sortStrings l1 = sortStrings l2 := by
  haveI : IsAntisymm String strLe := ⟨fun a b h1 h2 => by
    have := lexLe_antisymm a.data b.data h1 h2
    cases a
    cases b
    exact congrArg String.mk this⟩
  exact List.eq_of_perm_of_sorted
    (((sortStrings_perm l1).trans h).trans (sortStrings_perm l2).symm)
    (sortStrings_sorted l1) (sortStrings_sorted l2)

theorem project_cache_hit_iff (f c : String) :
    project_cache_hit f c = true ↔ (f ≠ "" ∧ f = c) := by
  simp only [project_cache_hit, Bool.and_eq_true, Bool.not_eq_true',
    beq_eq_false_iff_ne, ne_eq, beq_iff_eq]
  constructor
  · rintro ⟨⟨h1, _⟩, h3⟩
    exact ⟨h1, h3⟩
  · rintro ⟨h1, h2⟩
    exact ⟨⟨h1, fun he => h1 (h2.trans he)⟩, h2⟩

theorem collect_projects_shape (apps : Option (List ChildDir))
    (status_map : StatusMap) (allowed_exts ignore : List String) (base : String) :
    ∀ r ∈ collect_projects apps status_map allowed_exts ignore base,
      r.cache_hit = project_cache_hit r.fp r.cached_fp ∧
      r.status = (status_map.lookup r.name).getD ("orig") ∧
      r.status ≠ "not" ∧ r.status ≠ "skip" := by
  intro r hr
  cases apps with
  | none => simp [collect_projects] at hr
  | some children =>
      simp only [collect_projects] at hr
      rcases List.mem_filterMap.mp hr with ⟨c, _, heq⟩
      split at heq
      · exact absurd heq (by simp)
      · rename_i hst
        have hr' := Option.some.inj heq
        subst hr'
        refine ⟨rfl, rfl, ?_, ?_⟩
        · intro h
          apply hst
          have h2 : (List.lookup c.name status_map).getD ("orig") = "not" := h
          rw [h2]
          simp
        · intro h
          apply hst
          have h2 : (List.lookup c.name status_map).getD ("orig") = "skip" := h
          rw [h2]
          simp

theorem collect_projects_excludes (children : List ChildDir)
    (status_map : StatusMap) (allowed_exts ignore : List String) (base : String)
    (p : String)
    (hp : status_map.lookup p = some ("not") ∨ status_map.lookup p = some ("skip")) :
    ∀ r ∈ collect_projects (some children) status_map allowed_exts ignore base,
      r.name ≠ p := by
  intro r hr
  simp only [collect_projects] at hr
  rcases List.mem_filterMap.mp hr with ⟨c, _, heq⟩
  split at heq
  · exact absurd heq (by simp)
  · rename_i hst
    have hr' := Option.some.inj heq
    subst hr'
    intro hname
    dsimp at hname
    rw [hname] at hst
    rcases hp with h | h <;> rw [h] at hst <;> exact hst (by simp)

theorem lookup_map_set (m : List (String × String)) (k v p : String) (hkp : k ≠ p) :
    (m.map (fun kv => if kv.1 == k then (k, v) else kv)).lookup p = m.lookup p := by
  have hpk : (p == k) = false := by
    simp only [beq_eq_false_iff_ne, ne_eq]
    exact fun he => hkp he.symm
  induction m with
  | nil => rfl
  | cons ab t ih =>
      obtain ⟨a, b⟩ := ab
      by_cases hak : (a == k) = true
      · have ha : a = k := by simpa using hak
        subst ha
        rw [List.map_cons, if_pos hak]
        simp only [List.lookup, hpk]
        exact ih
      · rw [List.map_cons, if_neg hak]
        cases hpa : p == a
        · simp only [List.lookup, hpa]
          exact ih
        · simp only [List.lookup, hpa]

theorem lookup_map_set_self (m : List (String × String)) (k v : String) :
    ((m.lookup k).isSome) →
    (m.map (fun kv => if kv.1 == k then (k, v) else kv)).lookup k = some v := by
  induction m with
  | nil => intro h; simp [List.lookup] at h
  | cons ab t ih =>
      obtain ⟨a, b⟩ := ab
      intro h
      by_cases hak : (a == k) = true
      · have ha : a = k := by simpa using hak
        subst ha
        rw [List.map_cons, if_pos hak]
        simp [List.lookup]
      · have hka : (k == a) = false := by
          simp only [beq_eq_false_iff_ne, ne_eq]
          intro he
          exact hak (by simp [he])
        rw [List.map_cons, if_neg hak]
        simp only [List.lookup, hka] at h ⊢
        exact ih h

theorem lookup_append_single (m : List (String × String)) (k v p : String)
    (hkp : k ≠ p) : (m ++ [(k, v)]).lookup p = m.lookup p := by
  have hpk : (p == k) = false := by
    simp only [beq_eq_false_iff_ne, ne_eq]
    exact fun he => hkp he.symm
  induction m with
  | nil => simp [List.lookup, hpk]
  | cons ab t ih =>
      obtain ⟨a, b⟩ := ab
      cases hpa : p == a <;> simp [List.lookup, hpa, ih]

theorem lookup_append_single_self (m : List (String × String)) (k v : String)
    (h : m.lookup k = none) : (m ++ [(k, v)]).lookup k = some v := by
  induction m with
  | nil => simp [List.lookup]
  | cons ab t ih =>
      obtain ⟨a, b⟩ := ab
      cases hka : k == a
      · simp only [List.lookup, hka] at h
        simp [List.lookup, hka, ih h]
      · simp only [List.lookup, hka] at h
        exact absurd h (by simp)

theorem mapSet_lookup_self (m : StatusMap) (k v : String) :
    (mapSet m k v).lookup k = some v := by
  unfold mapSet
  by_cases hs : (m.lookup k).isSome
  · rw [if_pos hs]
    exact lookup_map_set_self m k v hs
  · rw [if_neg hs]
    exact lookup_append_single_self m k v (Option.not_isSome_iff_eq_none.mp hs)

theorem mapSet_lookup_other (m : StatusMap) (k v p : String) (hkp : k ≠ p) :
    (mapSet m k v).lookup p = m.lookup p := by
  unfold mapSet
  by_cases hs : (m.lookup k).isSome
  · rw [if_pos hs]
    exact lookup_map_set m k v p hkp
  · rw [if_neg hs]
    exact lookup_append_single m k v p hkp

theorem mapSetD_lookup_other (m : StatusMap) (k v p : String) (hkp : k ≠ p) :
    (mapSetD m k v).lookup p = m.lookup p := by
  unfold mapSetD
  by_cases hs : (m.lookup k).isSome
  · rw [if_pos hs]
  · rw [if_neg hs]
    exact lookup_append_single m k v p hkp

theorem mapSetD_lookup_self_of_some (m : StatusMap) (k v w : String)
    (h : m.lookup k = some w) : (mapSetD m k v).lookup k = some w := by
  unfold mapSetD
  rw [if_pos (by simp [h])]
  exact h

theorem applyMarker_lookup_other (proj marker p : String) (m : StatusMap)
    (h : proj ≠ p) : (applyMarker proj marker m).lookup p = m.lookup p := by
  unfold applyMarker
  split
  · exact mapSet_lookup_other m proj _ p h
  · split
    · exact mapSet_lookup_other m proj _ p h
    · split
      · exact mapSetD_lookup_other m proj _ p h
      · split
        · exact mapSet_lookup_other m proj _ p h
        · rfl

theorem applyMarker_keeps_excluded (proj marker : String) (m : StatusMap)
    (hm : marker ≠ ".forked-work-modified")
    (h : m.lookup proj = some ("not") ∨ m.lookup proj = some ("skip")) :
    (applyMarker proj marker m).lookup proj = some ("not") ∨
      (applyMarker proj marker m).lookup proj = some ("skip") := by
  unfold applyMarker
  by_cases h1 : marker = ".not-my-work"
  · rw [if_pos (beq_iff_eq.mpr h1)]
    exact Or.inl (mapSet_lookup_self m proj ("not"))
  · rw [if_neg (by simp [h1])]
    by_cases h2 : marker = ".skip-for-now"
    · rw [if_pos (beq_iff_eq.mpr h2)]
      exact Or.inr (mapSet_lookup_self m proj ("skip"))
    · rw [if_neg (by simp [h2])]
      by_cases h3 : marker = ".forked-work"
      · rw [if_pos (beq_iff_eq.mpr h3)]
        rcases h with h | h
        · exact Or.inl (mapSetD_lookup_self_of_some m proj _ _ h)
        · exact Or.inr (mapSetD_lookup_self_of_some m proj _ _ h)
      · rw [if_neg (by simp [h3])]
        rw [if_neg (by simp [hm])]
        exact h

theorem applyMarker_sets_not (proj : String) (m : StatusMap) :
    (applyMarker proj (".not-my-work") m).lookup proj = some ("not") :=
  mapSet_lookup_self m proj ("not")

theorem applyMarker_sets_skip (proj : String) (m : StatusMap) :
    (applyMarker proj (".skip-for-now") m).lookup proj = some ("skip") := by
  unfold applyMarker
  rw [if_neg (by simp), if_pos (by simp)]
  exact mapSet_lookup_self m proj ("skip")

theorem foldSM_keeps_excluded (events : List MarkerEntry) :
    ∀ (sm : StatusMap) (p : String),
    (∀ e ∈ events, e.p = p → e.m ≠ ".forked-work-modified") →
    (sm.lookup p = some ("not") ∨ sm.lookup p = some ("skip")) →
    ((events.foldl stepSM sm).lookup p = some ("not") ∨
      (events.foldl stepSM sm).lookup p = some ("skip")) := by
  induction events with
  | nil => intro sm p _ h; exact h
  | cons e rest ih =>
      intro sm p hev h
      rw [List.foldl_cons]
      apply ih (stepSM sm e) p (fun e' he' => hev e' (List.mem_cons_of_mem e he'))
      by_cases hep : e.p = p
      · have hm := hev e (List.mem_cons_self e rest) hep
        rw [stepSM, hep]
        exact applyMarker_keeps_excluded p e.m sm hm h
      · rw [stepSM, applyMarker_lookup_other e.p e.m p sm hep]
        exact h

theorem foldSM_reaches_excluded (events : List MarkerEntry) :
    ∀ (sm : StatusMap) (p : String),
    (∀ e ∈ events, e.p = p → e.m ≠ ".forked-work-modified") →
    (∃ e ∈ events, e.p = p ∧ (e.m = ".skip-for-now" ∨ e.m = ".not-my-work")) →
    ((events.foldl stepSM sm).lookup p = some ("not") ∨
      (events.foldl stepSM sm).lookup p = some ("skip")) := by
  induction events with
  | nil => intro sm p _ hex; simp at hex
  | cons e rest ih =>
      intro sm p hev hex
      rw [List.foldl_cons]
      rcases hex with ⟨e', he', hp', hm'⟩
      rcases List.mem_cons.mp he' with rfl | htail
      · apply foldSM_keeps_excluded rest (stepSM sm e') p
          (fun x hx => hev x (List.mem_cons_of_mem e' hx))
        rcases hm' with hm' | hm'
        · rw [stepSM, hp', hm']
          exact Or.inr (applyMarker_sets_skip p sm)
        · rw [stepSM, hp', hm']
          exact Or.inl (applyMarker_sets_not p sm)
      · exact ih (stepSM sm e) p (fun x hx => hev x (List.mem_cons_of_mem e hx))
          ⟨e', htail, hp', hm'⟩

theorem markers_foldl_dir (files : List String) (proj path : String)
    (es : List MarkerEntry) (sm : StatusMap) :
    MARKERS.foldl (fun a marker =>
        if files.contains marker then
          (a.1 ++ [⟨marker, proj, path⟩], applyMarker proj marker a.2)
        else a) (es, sm)
      = (es ++ dirEvents files proj path,
         (dirEvents files proj path).foldl stepSM sm) := by
  by_cases h1 : (".not-my-work" : String) ∈ files <;>
    by_cases h2 : (".skip-for-now" : String) ∈ files <;>
      by_cases h3 : (".forked-work" : String) ∈ files <;>
        by_cases h4 : (".forked-work-modified" : String) ∈ files <;>
          simp [MARKERS, dirEvents, List.contains, List.elem_eq_mem,
            h1, h2, h3, h4, stepSM]

theorem scanMarkersF_eq (fuel : Nat) :
    ∀ (depth : Nat) (t : DirTree) (proj path : String)
      (es : List MarkerEntry) (sm : StatusMap),
    scanMarkersF fuel depth t proj path (es, sm)
      = (es ++ markerEventsF fuel depth t proj path,
         (markerEventsF fuel depth t proj path).foldl stepSM sm) := by
  induction fuel with
  | zero =>
      intro depth t proj path es sm
      simp [scanMarkersF, markerEventsF]
  | succ fuel ih =>
      intro depth t proj path es sm
      cases t with
      | mk files subs =>
          have key : ∀ (subs' : List (String × DirTree)) (es' : List MarkerEntry)
              (sm' : StatusMap),
              subs'.foldl (fun a nt =>
                  scanMarkersF fuel (depth + 1) nt.2
                    (if depth = 0 then nt.1 else proj) (path ++ "/" ++ nt.1) a)
                (es', sm')
                = (es' ++ subs'.flatMap (fun nt =>
                      markerEventsF fuel (depth + 1) nt.2
                        (if depth = 0 then nt.1 else proj) (path ++ "/" ++ nt.1)),
                   (subs'.flatMap (fun nt =>
                      markerEventsF fuel (depth + 1) nt.2
                        (if depth = 0 then nt.1 else proj)
                        (path ++ "/" ++ nt.1))).foldl stepSM sm') := by
            intro subs'
            induction subs' with
            | nil => intro es' sm'; simp
            | cons nt rest ihs =>
                intro es' sm'
                simp only [List.foldl_cons, List.flatMap_cons]
                rw [ih, ihs]
                simp [List.append_assoc, List.foldl_append]
          show subs.foldl _ (MARKERS.foldl _ (es, sm)) = _
          rw [markers_foldl_dir, key]
          simp only [markerEventsF]
          simp [List.append_assoc, List.foldl_append]

theorem discover_markers_eq (t : DirTree) (base : String) :
    discover_markers (some t) base
      = (markerEventsF 3 0 t ("") base,
         (markerEventsF 3 0 t ("") base).foldl stepSM []) := by
  show scanMarkersF 3 0 t ("") base ([], []) = _
  rw [scanMarkersF_eq]
  simp

theorem mainStep_none_eq (fp ts ad : String) (markers : List MarkerEntry)
    (projects : List ProjRecord) (world : World) (e c x i : Json) :
    mainStep none fp ts ad markers projects world e c x i
      = some (coldOutcome fp ts ad markers projects world e c x i) := rfl

theorem mainStep_entry_eq (f t : String) (d : Json) (fp ts ad : String)
    (markers : List MarkerEntry) (projects : List ProjRecord) (world : World)
    (e c x i : Json) :
    mainStep (some (cacheEntryJson f t d)) fp ts ad markers projects world e c x i
      = if f = fp
        then some { emitted := Json.obj [("fp", Json.str fp),
                      ("cache_hit", Json.bool true), ("data", d)]
                    wroteCache := none
                    summarized := none }
        else some (coldOutcome fp ts ad markers projects world e c x i) := rfl

/-- Claim C1: when the cache store holds an entry whose stored fingerprint
equals the newly computed run fingerprint, main emits the stored payload
unchanged with cache_hit true and performs no stale resolution,
summarization or cache write; otherwise (different stored fingerprint, or
no readable cache) it summarizes exactly the non-cache-hit projects,
writes the cache, and emits cache_hit false. -/
theorem claim_C1_global_short_circuit (f t : String) (d : Json) (fp ts ad : String)
    (markers : List MarkerEntry) (projects : List ProjRecord) (world : World)
    (e c x i : Json) :
    (f = fp →
      mainStep (some (cacheEntryJson f t d)) fp ts ad markers projects world e c x i
        = some { emitted := Json.obj [("fp", Json.str fp),
                   ("cache_hit", Json.bool true), ("data", d)]
                 wroteCache := none
                 summarized := none }) ∧
    (f ≠ fp →
      mainStep (some (cacheEntryJson f t d)) fp ts ad markers projects world e c x i
        = some (coldOutcome fp ts ad markers projects world e c x i)) ∧
    mainStep none fp ts ad markers projects world e c x i
      = some (coldOutcome fp ts ad markers projects world e c x i) ∧
    (coldOutcome fp ts ad markers projects world e c x i).summarized
      = some (projects.filter (fun p => !p.cache_hit)) ∧
    (coldOutcome fp ts ad markers projects world e c x i).wroteCache
      = some (fp, build_payload ts ad markers projects
          ((projects.filter (fun p => !p.cache_hit)).map (summarize_project world))
          e c x i) ∧
    (coldOutcome fp ts ad markers projects world e c x i).emitted
      = Json.obj [("fp", Json.str fp), ("cache_hit", Json.bool false),
          ("data", build_payload ts ad markers projects
            ((projects.filter (fun p => !p.cache_hit)).map (summarize_project world))
            e c x i)] := by
  refine ⟨?_, ?_, mainStep_none_eq fp ts ad markers projects world e c x i, rfl, rfl, rfl⟩
  · intro h
    rw [mainStep_entry_eq, if_pos h]
  · intro h
    rw [mainStep_entry_eq, if_neg h]

theorem claim_C1_witness :
    mainStep (some (cacheEntryJson ("aa") ("t0") (Json.num 7))) ("aa") ("ts") ("ad")
        [] [] [] Json.null Json.null Json.null Json.null
      = some { emitted := Json.obj [("fp", Json.str ("aa")),
                 ("cache_hit", Json.bool true), ("data", Json.num 7)]
               wroteCache := none
               summarized := none } :=
  (claim_C1_global_short_circuit ("aa") ("t0") (Json.num 7) ("aa") ("ts") ("ad")
    [] [] [] Json.null Json.null Json.null Json.null).1 rfl

/-- Claim C2: for every record produced by the collector, isCacheHit holds
iff the fresh fingerprint is nonempty and equals the cached fingerprint;
in particular it is never true on an empty fingerprint. -/
theorem claim_C2_isCacheHit_iff (apps : Option (List ChildDir))
    (status_map : StatusMap) (allowed_exts ignore : List String) (base : String) :
    ∀ r ∈ collect_projects apps status_map allowed_exts ignore base,
      (r.cache_hit = true ↔ (r.fp ≠ "" ∧ r.fp = r.cached_fp)) ∧
      (r.fp = "" → r.cache_hit = false) := by
  intro r hr
  have hs := (collect_projects_shape apps status_map allowed_exts ignore base r hr).1
  constructor
  · rw [hs]
    exact project_cache_hit_iff r.fp r.cached_fp
  · intro hfp
    rw [hs]
    cases hcc : project_cache_hit r.fp r.cached_fp
    · rfl
    · exact absurd ((project_cache_hit_iff _ _).mp hcc).1 (by simp [hfp])

theorem claim_C2_witness :
    (recW.cache_hit = true ↔ (recW.fp ≠ "" ∧ recW.fp = recW.cached_fp)) ∧
    (recW.fp = "" → recW.cache_hit = false) :=
  claim_C2_isCacheHit_iff (some [childW ("p")]) [] [] [] ("/a") recW (by decide)

/-- Claim C6 counterexample: two concrete cache states refute the claim
that an absent, non-JSON, or wrong-schema cache always reads as null
without raising.  A cache holding the valid JSON number 42 (wrong schema)
is returned as parsed, not as null; and a cache holding bytes that are not
valid UTF-8 (hence not valid JSON) makes read_cache raise an uncaught
UnicodeDecodeError instead of returning null. -/
theorem claim_C6_counterexample :
    read_cache (CacheFile.parsed (Json.num 42)) = some (some (Json.num 42)) ∧
    ¬ IsCacheEntryShape (Json.num 42) ∧
    read_cache (CacheFile.parsed (Json.num 42)) ≠ some none ∧
    read_cache CacheFile.badBytes = none ∧
    read_cache CacheFile.badBytes ≠ some none := by
  refine ⟨rfl, ?_, by simp [read_cache], rfl, by simp [read_cache]⟩
  rintro ⟨f, t, d, h⟩
  exact Json.noConfusion h

/-- Claim C6 (amended): read_cache returns null, without raising, for a
missing cache file, for a read failing with OSError, and for UTF-8 text
that is not valid JSON; but a cache whose bytes are not valid UTF-8 makes
the utf-8 read_text call raise UnicodeDecodeError, which the except clause
(OSError, json.JSONDecodeError) does not catch, so the exception escapes
to the caller; and a successfully parsed JSON value of any shape is
returned unchanged, with no schema validation. -/
theorem claim_C6_read_cache_amended :
    read_cache CacheFile.absent = some none ∧
    read_cache CacheFile.ioError = some none ∧
    read_cache CacheFile.invalid = some none ∧
    read_cache CacheFile.badBytes = none ∧
    ∀ j, read_cache (CacheFile.parsed j) = some (some j) :=
  ⟨rfl, rfl, rfl, rfl, fun _ => rfl⟩

/-- Claim C8: hash_paths is invariant under permutations of the path list. -/
theorem claim_C8_order_independence (fs : FS) (l1 l2 : List String)
    (h : l1.Perm l2) : hash_paths fs l1 = hash_paths fs l2 := by
  unfold hash_paths hashPathsStream
  rw [sortStrings_perm_inv l1 l2 h]

theorem claim_C8_witness :
    hash_paths [] ["a", "b"] = hash_paths [] ["b", "a"] :=
  claim_C8_order_independence [] ["a", "b"] ["b", "a"] (by decide)

/-- Claim C7: for files over the size ceiling, hash_file never touches the
content: the digest is the SHA-256 hex of the sentinel-plus-path input, is
64 characters long (hence nonempty), depends only on the path, and the
sentinel inputs of two distinct paths differ, so their digests differ
unless real SHA-256 has a collision. -/
theorem claim_C7_large_file (fs : FS) (p : String) (sz : Nat) (ct : List Nat)
    (hp : fsGet fs p = FileNode.node sz ct) (hsz : sz > MAX_HASH_FILE_SIZE) :
    (hash_file fs p = sha256hex (largeFileInput p)) ∧
    ((hash_file fs p).length = 64 ∧ hash_file fs p ≠ "") ∧
    (∀ (fs' : FS) (sz' : Nat) (ct' : List Nat),
        fsGet fs' p = FileNode.node sz' ct' → sz' > MAX_HASH_FILE_SIZE →
        hash_file fs' p = hash_file fs p) ∧
    (∀ (q : String) (fsq : FS) (szq : Nat) (ctq : List Nat), q ≠ p →
        fsGet fsq q = FileNode.node szq ctq → szq > MAX_HASH_FILE_SIZE →
        largeFileInput q ≠ largeFileInput p ∧
        (hash_file fsq q = hash_file fs p → Sha256Collision)) := by
  have hgen : ∀ (fs' : FS) (p' : String) (sz' : Nat) (ct' : List Nat),
      fsGet fs' p' = FileNode.node sz' ct' → sz' > MAX_HASH_FILE_SIZE →
      hash_file fs' p' = sha256hex (largeFileInput p') := by
    intro fs' p' sz' ct' hp' hsz'
    simp only [hash_file, hp']
    rw [if_pos hsz']
  have hmain := hgen fs p sz ct hp hsz
  refine ⟨hmain,
    ⟨by rw [hmain]; exact sha256hex_length _, by rw [hmain]; exact sha256hex_ne_empty _⟩,
    ?_, ?_⟩
  · intro fs' sz' ct' hp' hsz'
    rw [hgen fs' p sz' ct' hp' hsz', hmain]
  · intro q fsq szq ctq hqp hpq hszq
    have hinq : largeFileInput q ≠ largeFileInput p := by
      intro he
      apply hqp
      have hs := utf8Str_inj _ _ he
      have hd : ("LARGE_FILE:" ++ q).data = ("LARGE_FILE:" ++ p).data :=
        congrArg String.data hs
      rw [String.data_append, String.data_append] at hd
      have hqd := List.append_cancel_left hd
      cases q
      cases p
      exact congrArg String.mk hqd
    refine ⟨hinq, ?_⟩
    intro hd
    rw [hgen fsq q szq ctq hpq hszq, hmain] at hd
    exact ⟨largeFileInput q, largeFileInput p, hinq, sha256hex_inj_digest _ _ hd⟩

theorem claim_C7_witness :
    (hash_file [("big", FileNode.node 104857601 [7])] ("big")
        = sha256hex (largeFileInput ("big"))) ∧
    ((hash_file [("big", FileNode.node 104857601 [7])] ("big")).length = 64 ∧
      hash_file [("big", FileNode.node 104857601 [7])] ("big") ≠ "") ∧
    (∀ (fs' : FS) (sz' : Nat) (ct' : List Nat),
        fsGet fs' ("big") = FileNode.node sz' ct' → sz' > MAX_HASH_FILE_SIZE →
        hash_file fs' ("big") = hash_file [("big", FileNode.node 104857601 [7])] ("big")) ∧
    (∀ (q : String) (fsq : FS) (szq : Nat) (ctq : List Nat), q ≠ "big" →
        fsGet fsq q = FileNode.node szq ctq → szq > MAX_HASH_FILE_SIZE →
        largeFileInput q ≠ largeFileInput ("big") ∧
        (hash_file fsq q = hash_file [("big", FileNode.node 104857601 [7])] ("big") →
          Sha256Collision)) :=
  claim_C7_large_file [("big", FileNode.node 104857601 [7])] ("big") 104857601 [7]
    rfl (by decide)

theorem hashPathsStream_eq_flatMap (fs : FS) (files : List String) :
    hashPathsStream fs files
      = (sortStrings files).flatMap (fun rel => utf8Str rel ++ pathContrib fs rel) := by
  unfold hashPathsStream
  suffices h : ∀ (l : List String) (acc : List Nat),
      l.foldl (fun acc rel => acc ++ utf8Str rel ++ pathContrib fs rel) acc
        = acc ++ l.flatMap (fun rel => utf8Str rel ++ pathContrib fs rel) by
    simpa using h (sortStrings files) []
  intro l
  induction l with
  | nil => intro acc; simp
  | cons r rs ih =>
      intro acc
      rw [List.foldl_cons, ih, List.flatMap_cons]
      simp [List.append_assoc]

/-- Claim C5 counterexample: on a root holding one small file, the source
hash_paths (which folds the raw content bytes) disagrees with the spec's
description (folding the file content digest). -/
theorem claim_C5_counterexample :
    hash_paths [("a", FileNode.node 1 [120])] ["a"]
      ≠ hash_paths_specModel [("a", FileNode.node 1 [120])] ["a"] := by
  decide

/-- Claim C5 (amended): hash_paths sorts the relative paths
lexicographically and folds, for each path in sorted order, the path's
UTF-8 bytes plus the file's RAW CONTENT BYTES (or the literal large-file
sentinel string for oversized files) into one cumulative hash; a path that
is not a regular file, or whose stat or read raises, contributes only its
path bytes. -/
theorem claim_C5_sorted_fold_amended (fs : FS) (files : List String) :
    hash_paths fs files = sha256hex ((sortStrings files).flatMap
        (fun rel => utf8Str rel ++ pathContrib fs rel)) ∧
    List.Sorted strLe (sortStrings files) ∧
    (sortStrings files).Perm files ∧
    (∀ rel, fsGet fs rel = FileNode.absent → pathContrib fs rel = []) ∧
    (∀ rel, fsGet fs rel = FileNode.ioError → pathContrib fs rel = []) ∧
    (∀ rel sz ct, fsGet fs rel = FileNode.node sz ct → sz > MAX_HASH_FILE_SIZE →
        pathContrib fs rel = utf8Str ("LARGE_FILE")) ∧
    (∀ rel sz ct, fsGet fs rel = FileNode.node sz ct → ¬ sz > MAX_HASH_FILE_SIZE →
        pathContrib fs rel = ct) := by
  refine ⟨?_, sortStrings_sorted files, sortStrings_perm files, ?_, ?_, ?_, ?_⟩
  · unfold hash_paths
    rw [hashPathsStream_eq_flatMap]
  · intro rel h
    simp [pathContrib, h]
  · intro rel h
    simp [pathContrib, h]
  · intro rel sz ct h hsz
    simp [pathContrib, h, hsz]
  · intro rel sz ct h hsz
    simp [pathContrib, h, hsz]

theorem claim_C5_witness :
    pathContrib [("big", FileNode.node 104857601 [])] ("big") = utf8Str ("LARGE_FILE") ∧
    hash_paths ([] : FS) ["b", "a"] = sha256hex ((sortStrings ["b", "a"]).flatMap
      (fun rel => utf8Str rel ++ pathContrib ([] : FS) rel)) :=
  ⟨(claim_C5_sorted_fold_amended [("big", FileNode.node 104857601 [])]
      []).2.2.2.2.2.1 ("big") 104857601 [] rfl (by decide),
   (claim_C5_sorted_fold_amended [] ["b", "a"]).1⟩

/-- Claim C3 counterexample: a project directory holding both a
skip-for-now and a forked-work-modified marker is recorded under
fork_mod (the later marker overwrites the exclusion), and the project is
NOT excluded from the collected project list. -/
theorem claim_C3_counterexample :
    ((discover_markers (some treeC3) ("/apps")).2.lookup ("p") = some ("fork_mod")) ∧
    ((⟨".skip-for-now", "p", "/apps/p"⟩ : MarkerEntry)
        ∈ (discover_markers (some treeC3) ("/apps")).1) ∧
    ((collect_projects (some [childC3]) (discover_markers (some treeC3) ("/apps")).2
        [] [] ("/apps")).map (fun r => r.name)) = ["p"] := by
  refine ⟨rfl, by decide, by decide⟩

/-- Claim C3 (amended): a project with a skip-for-now or not-my-work
marker at depth at most 2 is recorded under an exclusion status and
excluded downstream PROVIDED no forked-work-modified marker of the same
project is discovered: marker updates are last-writer-wins in walk order
(forked-work never overwrites), so a later forked-work-modified marker
overrides the exclusion. -/
theorem claim_C3_skip_terminal_amended (apps : Option DirTree) (base p : String)
    (hskip : ∃ e ∈ (discover_markers apps base).1, e.p = p ∧
        (e.m = ".skip-for-now" ∨ e.m = ".not-my-work"))
    (hnofm : ∀ e ∈ (discover_markers apps base).1, e.p = p →
        e.m ≠ ".forked-work-modified") :
    ((discover_markers apps base).2.lookup p = some ("not") ∨
      (discover_markers apps base).2.lookup p = some ("skip")) ∧
    ∀ (children : List ChildDir) (allowed_exts ignore : List String) (base' : String),
      ∀ r ∈ collect_projects (some children) (discover_markers apps base).2
          allowed_exts ignore base', r.name ≠ p := by
  cases apps with
  | none => simp [discover_markers] at hskip
  | some t =>
      rw [discover_markers_eq] at hskip hnofm ⊢
      have hmain := foldSM_reaches_excluded (markerEventsF 3 0 t ("") base) [] p
        hnofm hskip
      refine ⟨hmain, ?_⟩
      intro children exts ignore base' r hr
      exact collect_projects_excludes children _ exts ignore base' p hmain r hr

theorem claim_C3_witness :
    (((discover_markers (some treeW) ("/apps")).2.lookup ("q") = some ("not")) ∨
      ((discover_markers (some treeW) ("/apps")).2.lookup ("q") = some ("skip"))) ∧
    ∀ (children : List ChildDir) (allowed_exts ignore : List String) (base' : String),
      ∀ r ∈ collect_projects (some children) (discover_markers (some treeW) ("/apps")).2
          allowed_exts ignore base', r.name ≠ "q" :=
  claim_C3_skip_terminal_amended (some treeW) ("/apps") ("q") (by decide) (by decide)

theorem mainStep_cases (cache : Option Json) (fp ts ad : String)
    (markers : List MarkerEntry) (projects : List ProjRecord) (world : World)
    (e c x i : Json) (out : RunOutcome)
    (h : mainStep cache fp ts ad markers projects world e c x i = some out) :
    out = coldOutcome fp ts ad markers projects world e c x i ∨
    ∃ dpay, out = { emitted := Json.obj [("fp", Json.str fp),
                      ("cache_hit", Json.bool true), ("data", dpay)]
                    wroteCache := none
                    summarized := none } := by
  cases cache with
  | none =>
      left
      rw [mainStep_none_eq] at h
      exact (Option.some.inj h).symm
  | some j =>
      by_cases ht : jsonTruthy j = true
      · cases j with
        | null => simp [jsonTruthy] at ht
        | bool b =>
            simp only [mainStep, ht, if_true] at h
            exact absurd h (by simp)
        | num n =>
            simp only [mainStep, ht, if_true] at h
            exact absurd h (by simp)
        | str s =>
            simp only [mainStep, ht, if_true] at h
            exact absurd h (by simp)
        | arr xs =>
            simp only [mainStep, ht, if_true] at h
            exact absurd h (by simp)
        | obj kvs =>
            simp only [mainStep, ht, if_true] at h
            cases hlk : kvs.lookup ("fingerprint") with
            | none =>
                simp only [hlk] at h
                left
                exact (Option.some.inj h).symm
            | some v =>
                cases v with
                | str s =>
                    simp only [hlk] at h
                    by_cases hs : s = fp
                    · rw [if_pos hs] at h
                      right
                      exact ⟨_, (Option.some.inj h).symm⟩
                    · rw [if_neg hs] at h
                      left
                      exact (Option.some.inj h).symm
                | null =>
                    simp only [hlk] at h
                    left
                    exact (Option.some.inj h).symm
                | bool b =>
                    simp only [hlk] at h
                    left
                    exact (Option.some.inj h).symm
                | num n =>
                    simp only [hlk] at h
                    left
                    exact (Option.some.inj h).symm
                | arr xs =>
                    simp only [hlk] at h
                    left
                    exact (Option.some.inj h).symm
                | obj kvs2 =>
                    simp only [hlk] at h
                    left
                    exact (Option.some.inj h).symm
      · have hf : jsonTruthy j = false := by
          cases hjt : jsonTruthy j
          · rfl
          · exact absurd hjt ht
        simp only [mainStep, hf, Bool.false_eq_true, if_false] at h
        left
        exact (Option.some.inj h).symm

/-- Claim C4 counterexample: the emitted object carries the run digest
under the key fp, not under a key named fingerprint as the spec's output
shape states. -/
theorem claim_C4_counterexample :
    objKeys (emittedOf (mainStep none ("f") ("ts") ("ad") [] [] []
        Json.null Json.null Json.null Json.null)) = ["fp", "cache_hit", "data"] ∧
    ¬ SpecEmitShape (emittedOf (mainStep none ("f") ("ts") ("ad") [] [] []
        Json.null Json.null Json.null Json.null)) := by
  constructor
  · rfl
  · rintro ⟨a, b, dv, h⟩
    have hk := congrArg objKeys h
    have h1 : objKeys (emittedOf (mainStep none ("f") ("ts") ("ad") [] [] []
        Json.null Json.null Json.null Json.null)) = ["fp", "cache_hit", "data"] := rfl
    have h2 : objKeys (Json.obj [("fingerprint", a), ("cache_hit", b), ("data", dv)])
        = ["fingerprint", "cache_hit", "data"] := rfl
    rw [h1, h2] at hk
    exact absurd hk (by decide)

/-- Claim C4 (amended): every emitted output is a single JSON object with
the keys fp, cache_hit and data (the digest sits under fp, not
fingerprint), and on a cold run the data payload carries aggregate stats
where total counts all collected projects, stale counts projects with
isCacheHit false, and cached counts projects with isCacheHit true. -/
theorem claim_C4_emit_shape_amended (cache : Option Json) (fp ts ad : String)
    (markers : List MarkerEntry) (projects : List ProjRecord) (world : World)
    (e c x i : Json) (out : RunOutcome)
    (hstep : mainStep cache fp ts ad markers projects world e c x i = some out) :
    objKeys out.emitted = ["fp", "cache_hit", "data"] ∧
    (cache = none →
      jsonGet out.emitted ("cache_hit") = some (Json.bool false) ∧
      jsonGet out.emitted ("fp") = some (Json.str fp) ∧
      ∃ payload, jsonGet out.emitted ("data") = some payload ∧
        jsonGet payload ("stats") = some (Json.obj
          [("total", Json.num projects.length),
           ("stale", Json.num (projects.filter (fun p => !p.cache_hit)).length),
           ("cached", Json.num (projects.filter (fun p => p.cache_hit)).length)])) := by
  constructor
  · rcases mainStep_cases cache fp ts ad markers projects world e c x i out hstep with
      hcold | ⟨dpay, hhit⟩
    · rw [hcold]
      rfl
    · rw [hhit]
      rfl
  · intro hcn
    subst hcn
    rw [mainStep_none_eq] at hstep
    have hout := (Option.some.inj hstep).symm
    subst hout
    refine ⟨rfl, rfl, ?_⟩
    have hstats : jsonGet (build_payload ts ad markers projects
        ((projects.filter (fun p => !p.cache_hit)).map (summarize_project world))
        e c x i) ("stats")
        = some (Json.obj
          [("total", Json.num projects.length),
           ("stale", Json.num
             ((projects.filter (fun p => !p.cache_hit)).map
               (summarize_project world)).length),
           ("cached", Json.num (projects.filter (fun p => p.cache_hit)).length)]) := rfl
    rw [List.length_map] at hstats
    exact ⟨_, rfl, hstats⟩

theorem claim_C4_witness :
    objKeys (coldOutcome ("f") ("ts") ("ad") [] [] [] Json.null Json.null
        Json.null Json.null).emitted = ["fp", "cache_hit", "data"] :=
  (claim_C4_emit_shape_amended none ("f") ("ts") ("ad") [] [] [] Json.null Json.null
    Json.null Json.null (coldOutcome ("f") ("ts") ("ad") [] [] [] Json.null Json.null
      Json.null Json.null) rfl).1

/-- Claim C9 counterexample: with a nonexistent scan root the run does not
abort; it proceeds and emits a normal cache-miss payload. -/
theorem claim_C9_counterexample :
    (runPhase1 none ("/apps") [] [] CacheFile.absent ("f") ("ts") []
        Json.null Json.null Json.null Json.null).isSome = true ∧
    jsonGet (emittedOf (runPhase1 none ("/apps") [] [] CacheFile.absent ("f") ("ts") []
        Json.null Json.null Json.null Json.null)) ("cache_hit")
      = some (Json.bool false) := by
  exact ⟨rfl, rfl⟩

/-- Claim C9 (amended): a nonexistent scan root does not abort the run:
marker discovery and project collection yield empty results, and the run
emits a normal cache-miss output whose stats record zero projects. -/
theorem claim_C9_missing_root_amended (base : String)
    (allowed_exts ignore : List String) (fp ts : String) (world : World)
    (e c x i : Json) :
    discover_markers none base = ([], []) ∧
    collect_projects none [] allowed_exts ignore base = [] ∧
    ∃ out, runPhase1 none base allowed_exts ignore CacheFile.absent fp ts world
        e c x i = some out ∧
      objKeys out.emitted = ["fp", "cache_hit", "data"] ∧
      jsonGet out.emitted ("cache_hit") = some (Json.bool false) ∧
      ∃ payload, jsonGet out.emitted ("data") = some payload ∧
        jsonGet payload ("stats") = some (Json.obj
          [("total", Json.num 0), ("stale", Json.num 0), ("cached", Json.num 0)]) :=
  ⟨rfl, rfl, _, rfl, rfl, rfl, _, rfl, rfl⟩

/-- Claim C10: hash_paths always returns a 64-character lowercase-hex
digest and never the empty string; an existing directory whose walk
selects no files still gets the fixed digest of the empty stream; only a
nonexistent directory yields the empty fingerprint from hash_non_git_dir,
and hash_file yields the empty string exactly on stat or read failure. -/
theorem claim_C10_digest_totality :
    (∀ (fs : FS) (files : List String), (hash_paths fs files).length = 64 ∧
        ∀ ch ∈ (hash_paths fs files).data, ch ∈ hexDigits) ∧
    (∀ fs : FS, hash_paths fs [] = sha256hex []) ∧
    (∀ (fs : FS) (allowed_exts ignore : List String) (t : DirTree),
        walkSelectF allowed_exts ignore 5 t ("") = [] →
        hash_non_git_dir (some t) fs allowed_exts ignore 4 = sha256hex [] ∧
        hash_non_git_dir (some t) fs allowed_exts ignore 4 ≠ "") ∧
    (∀ (fs : FS) (allowed_exts ignore : List String) (d : Nat),
        hash_non_git_dir none fs allowed_exts ignore d = "") ∧
    (∀ (fs : FS) (allowed_exts ignore : List String) (t : DirTree) (d : Nat),
        hash_non_git_dir (some t) fs allowed_exts ignore d ≠ "") ∧
    (∀ (fs : FS) (p : String),
        hash_file fs p = "" ↔
          (fsGet fs p = FileNode.absent ∨ fsGet fs p = FileNode.ioError)) := by
  refine ⟨fun fs files => ⟨sha256hex_length _, sha256hex_chars _⟩,
    fun fs => rfl, ?_, fun fs aexts ignore d => rfl, ?_, ?_⟩
  · intro fs aexts ignore t hsel
    constructor
    · show hash_paths fs (walkSelectF aexts ignore 5 t ("")) = sha256hex []
      rw [hsel]
      rfl
    · show hash_paths fs (walkSelectF aexts ignore 5 t ("")) ≠ ""
      rw [hsel]
      exact sha256hex_ne_empty _
  · intro fs aexts ignore t d
    exact sha256hex_ne_empty _
  · intro fs p
    cases h : fsGet fs p with
    | absent => simp [hash_file, h]
    | ioError => simp [hash_file, h]
    | node s ct =>
        simp only [hash_file, h]
        constructor
        · intro he
          by_cases hs : s > MAX_HASH_FILE_SIZE
          · rw [if_pos hs] at he
            exact absurd he (sha256hex_ne_empty _)
          · rw [if_neg hs] at he
            exact absurd he (sha256hex_ne_empty _)
        · rintro (hc | hc) <;> exact FileNode.noConfusion hc

theorem claim_C10_witness :
    hash_non_git_dir (some (DirTree.mk [] [])) [] [] [] 4 = sha256hex [] ∧
    hash_non_git_dir (some (DirTree.mk [] [])) [] [] [] 4 ≠ "" :=
  claim_C10_digest_totality.2.2.1 [] [] [] (DirTree.mk [] []) rfl

end Phase1

